import Mathlib

/-!
Verification of the headline-rewriting pipeline of `dmch.py` and of the
image-preservation validator `validate_images.py`.

The BeautifulSoup parse tree is embedded as a tree of element/text nodes; a
document is the list of top-level nodes of the soup.  The per-link rewriting
loop, the per-article comment classification, the homepage-fetch fatality
test, the ad-removal finalizer and the validator's exit computation are each
translated into executable Lean functions, and the behavioural claims about
them are settled below.
-/

set_option maxHeartbeats 1000000

namespace Dmch

/-- HTML node of the parse tree: an element with tag name, attribute list and
children, or a text node. -/
inductive Node where
  | elem : String → List (String × String) → List Node → Node
  | text : String → Node

/-- A parsed document: the list of top-level nodes of the soup. -/
abbrev Doc := List Node

/-- Children of a node (a text node has none). -/
def childrenOf : Node → List Node
  | .elem _ _ cs => cs
  | .text _ => []

/-- Attribute list of a node. -/
def attrsOf : Node → List (String × String)
  | .elem _ a _ => a
  | .text _ => []

/-- First value bound to attribute `k` (attribute dicts have unique keys). -/
def getAttr (attrs : List (String × String)) (k : String) : Option String :=
  (attrs.find? (fun p => p.1 == k)).map (fun p => p.2)

/-- Replace the value of attribute `k` (append when absent), as assignment to
`link["href"]` does on the bs4 attribute dict. -/
def setAttr : List (String × String) → String → String → List (String × String)
  | [], k, v => [(k, v)]
  | (k', v') :: rest, k, v =>
    if k' == k then (k, v) :: rest else (k', v') :: setAttr rest k v

/-- The `href` attribute of a node, when present. -/
def hrefOf (n : Node) : Option String :=
  match n with
  | .elem _ a _ => getAttr a "href"
  | .text _ => none

/-- Prefix test on character lists: `startsChars p s` holds when `p` is a
prefix of `s`. -/
def startsChars : List Char → List Char → Bool
  | [], _ => true
  | _ :: _, [] => false
  | p :: ps, c :: cs => p == c && startsChars ps cs

/-- Embeds Python `s.startswith(p)`. -/
def startsWithStr (s p : String) : Bool := startsChars p.data s.data

/-- Embeds `re.findall(r"article-(\d+)", href)[0]` on character lists: the
digit group of the leftmost occurrence of `article-` followed by at least one
digit, scanning left to right as the regex engine does. -/
def extractIdChars : List Char → Option (List Char)
  | [] => none
  | c :: cs =>
    if startsChars "article-".data (c :: cs) then
      let ds := ((c :: cs).drop 8).takeWhile Char.isDigit
      if ds.isEmpty then extractIdChars cs else some ds
    else extractIdChars cs

/-- The article id extracted from an href, when the id regex matches. -/
def extractArticleId (href : String) : Option String :=
  (extractIdChars href.data).map fun ds => String.mk ds

/-- Match of `/[^/]+/article-\d+/` anchored at the position right after a
slash: a nonempty slash-free segment, then `/article-`, at least one digit,
then `/`.  The segment is the maximal slash-free run, which is exactly what
the regex engine consumes since the following literal starts with `/`. -/
def segMatchAt (rest : List Char) : Bool :=
  let seg := rest.takeWhile (fun c => c != '/')
  let after := rest.drop seg.length
  !seg.isEmpty && startsChars "/article-".data after &&
    (let ds := (after.drop 9).takeWhile Char.isDigit
     !ds.isEmpty && (after.drop (9 + ds.length)).head? == some '/')

/-- Embeds `re.compile(r'/[^/]+/article-\d+/').search(href)` truthiness:
some position of the string starts a match. -/
def hrefMatchChars : List Char → Bool
  | [] => false
  | c :: cs => (c == '/' && segMatchAt cs) || hrefMatchChars cs

/-- An href matches the article-URL shape used by `find_all`. -/
def matchesArticleHref (href : String) : Bool := hrefMatchChars href.data

mutual

/-- Does the subtree rooted at this node (self included) contain an element
with the given tag?  Embeds the bs4 descendant search done by `find`. -/
def anyElemN (tag : String) : Node → Bool
  | .text _ => false
  | .elem t _ cs => t == tag || anyElemL tag cs

/-- List version of `anyElemN`. -/
def anyElemL (tag : String) : List Node → Bool
  | [] => false
  | c :: cs => anyElemN tag c || anyElemL tag cs

end

/-- Embeds `link.find('img') is not None`: the link has an image descendant. -/
def linkHasImg : Node → Bool
  | .elem _ _ cs => anyElemL "img" cs
  | .text _ => false

/-- Embeds `link.find('strong') is not None`. -/
def linkHasStrong : Node → Bool
  | .elem _ _ cs => anyElemL "strong" cs
  | .text _ => false

mutual

/-- Replace the contents of the first `strong` descendant in pre-order with
the comment text, as `strong_tag.clear(); strong_tag.append(...)` does on the
element returned by `find('strong')`.  `none` when there is no `strong`. -/
def replStrongN (comment : String) : Node → Option Node
  | .text _ => none
  | .elem t a cs =>
    if t == "strong" then some (.elem t a [.text comment])
    else
      match replStrongL comment cs with
      | some cs' => some (.elem t a cs')
      | none => none

/-- List version of `replStrongN`: rewrites the first subtree containing a
`strong`, leaves the rest untouched. -/
def replStrongL (comment : String) : List Node → Option (List Node)
  | [] => none
  | n :: ns =>
    match replStrongN comment n with
    | some n' => some (n' :: ns)
    | none =>
      match replStrongL comment ns with
      | some ns' => some (n :: ns')
      | none => none

end

/-- The site origin prefixed to relative hrefs (line 124 of dmch.py). -/
def dmOrigin : String := "https://www.dailymail.co.uk"

/-- Lines 122-124 of dmch.py: absolutize the href unless it already starts
with "http".  A missing href is impossible for collected anchors (`find_all`
filters on the attribute); that case is a no-op here. -/
def fixHref (attrs : List (String × String)) : List (String × String) :=
  match getAttr attrs "href" with
  | some h => if startsWithStr h "http" then attrs else setAttr attrs "href" (dmOrigin ++ h)
  | none => attrs

/-- The per-link body of the rewrite loop, lines 104-124 of dmch.py: given
the comment text and the current `headline_updated` flag, produce the mutated
link and the new flag.  Image-free links are cleared and given the comment
text only when the flag is still false; image links get the contents of their
first `strong` descendant replaced (when one exists), which also sets the
flag; every link then has its href absolutized. -/
def processLink (comment : String) (hu : Bool) : Node → Node × Bool
  | .elem t a cs =>
    if linkHasImg (.elem t a cs) then
      match replStrongL comment cs with
      | some cs' => (.elem t (fixHref a) cs', true)
      | none => (.elem t (fixHref a) cs, hu)
    else
      if hu then (.elem t (fixHref a) cs, hu)
      else (.elem t (fixHref a) [.text comment], true)
  | .text s => (.text s, hu)

/-- The rewrite loop over one article group, `headline_updated` threaded in
document order (lines 102-124 of dmch.py). -/
def processLinks (comment : String) (hu : Bool) : List Node → List Node
  | [] => []
  | l :: ls =>
    let r := processLink comment hu l
    r.1 :: processLinks comment r.2 ls

/-- Resolved comment for one article: the `Found(text)` / `NotFound` tagged
variant of the spec. -/
inductive CommentResult where
  | found : String → CommentResult
  | notFound : CommentResult

/-- Processing of one article group given its resolved comment: the `Found`
branch runs the rewrite loop with `headline_updated = False`; the `NotFound`
branch (non-200, empty body, parse failure, missing payload) does nothing. -/
def processGroup (r : CommentResult) (links : List Node) : List Node :=
  match r with
  | .found comment => processLinks comment false links
  | .notFound => links

/-- The `headline_updated` flag after folding the loop over a list of links. -/
def huAfter (comment : String) (hu : Bool) (links : List Node) : Bool :=
  links.foldl (fun h l => (processLink comment h l).2) hu

/-- The anchors collected by `find_all("a", href=article_href_pattern)`:
an `a` element whose href attribute is present and matches the pattern. -/
def isArticleAnchor (n : Node) : Bool :=
  match n with
  | .elem t a _ =>
    t == "a" &&
      (match getAttr a "href" with
       | some h => matchesArticleHref h
       | none => false)
  | .text _ => false

/-- The article id of an anchor, when its href yields one. -/
def articleIdOf (n : Node) : Option String := (hrefOf n).bind extractArticleId

/-- Treatment of one collected anchor in the document pass: anchors whose
href yields no id are skipped by the grouping loop (line 68-69 of dmch.py);
anchors in a `NotFound` group are untouched; anchors in a `Found` group run
the per-link body with their group's current `headline_updated` flag, which
is tracked per article id. -/
def rewriteAnchor (comments : String → CommentResult) (upd : List String) (n : Node) :
    Node × List String :=
  match articleIdOf n with
  | none => (n, upd)
  | some aid =>
    match comments aid with
    | .notFound => (n, upd)
    | .found comment =>
      let r := processLink comment (upd.contains aid) n
      (r.1, if r.2 then aid :: upd else upd)

mutual

/-- Document rewrite pass of dmch.py lines 62-124, expressed as one pre-order
traversal.  Matching anchors are rewritten with their group's flag state and
are not descended into (their mutation is fully described by `processLink`);
everything else is traversed unchanged.  Because the per-group loop runs over
the group's anchors in document order and mutations of distinct anchors do
not interact, this traversal computes the same document as the source's
group-by-group loop, under the standing assumption (true of conforming HTML,
where anchors cannot nest) that no article anchor is a descendant of another
article anchor. -/
def goN (comments : String → CommentResult) (upd : List String) : Node → Node × List String
  | .text s => (.text s, upd)
  | .elem t a cs =>
    if isArticleAnchor (.elem t a cs) then rewriteAnchor comments upd (.elem t a cs)
    else
      let r := goL comments upd cs
      (.elem t a r.1, r.2)

/-- List version of `goN`, threading the per-article flag state left to
right (document order). -/
def goL (comments : String → CommentResult) (upd : List String) : List Node → List Node × List String
  | [] => ([], upd)
  | n :: ns =>
    let r := goN comments upd n
    let r' := goL comments r.2 ns
    (r.1 :: r'.1, r'.2)

end

/-- The whole headline-rewriting pass over a document, given the comment
oracle (article id to resolved comment). -/
def processDoc (comments : String → CommentResult) (d : Doc) : Doc :=
  (goL comments [] d).1

/-- Split a character list on whitespace runs, as the bs4 tree builder splits
the `class` attribute into a value list. -/
def splitWsAux : List Char → List Char → List (List Char)
  | [], acc => if acc.isEmpty then [] else [acc.reverse]
  | c :: cs, acc =>
    if c.isWhitespace then
      if acc.isEmpty then splitWsAux cs [] else acc.reverse :: splitWsAux cs []
    else splitWsAux cs (c :: acc)

/-- Embeds `find_all(class_=cls)` membership: the node's `class` attribute,
split on whitespace, contains `cls`. -/
def hasClassAttr (n : Node) (cls : String) : Bool :=
  match n with
  | .elem _ a _ =>
    match getAttr a "class" with
    | some v => (splitWsAux v.data []).contains cls.data
    | none => false
  | .text _ => false

/-- A billboard advertisement container (line 143 of dmch.py). -/
def isBillboard (n : Node) : Bool := hasClassAttr n "billboard-container"

/-- An element with the given tag. -/
def isTagElem (tag : String) (n : Node) : Bool :=
  match n with
  | .elem t _ _ => t == tag
  | .text _ => false

/-- An `ad-slot` element (line 151 of dmch.py). -/
def isAdSlot (n : Node) : Bool := isTagElem "ad-slot" n

mutual

/-- Number of nodes in a subtree (self included) satisfying `p`: the length
of `find_all(p)`. -/
def countN (p : Node → Bool) : Node → Nat
  | .text s => if p (.text s) then 1 else 0
  | .elem t a cs => (if p (.elem t a cs) then 1 else 0) + countL p cs

/-- List version of `countN`. -/
def countL (p : Node → Bool) : List Node → Nat
  | [] => 0
  | n :: ns => countN p n + countL p ns

end

mutual

/-- Remove every node satisfying `p`, subtree and all, as iterated
`decompose()` does.  `none` when the node itself is removed. -/
def removeN (p : Node → Bool) : Node → Option Node
  | .text s => if p (.text s) then none else some (.text s)
  | .elem t a cs => if p (.elem t a cs) then none else some (.elem t a (removeL p cs))

/-- List version of `removeN`. -/
def removeL (p : Node → Bool) : List Node → List Node
  | [] => []
  | n :: ns =>
    match removeN p n with
    | none => removeL p ns
    | some n' => n' :: removeL p ns

end

/-- Document finalizer, lines 142-156 of dmch.py: count and remove the
billboard containers, then count and remove the `ad-slot` elements, in that
order.  Returns the cleaned document and the two removal counters. -/
def finalize (d : Doc) : Doc × Nat × Nat :=
  let bc := countL isBillboard d
  let d1 := removeL isBillboard d
  let ac := countL isAdSlot d1
  let d2 := removeL isAdSlot d1
  (d2, bc, ac)

/-- The whole document pipeline of `main`: headline rewriting followed by the
finalizer (the later serialized-text substitutions do not touch the tree). -/
def mainRun (comments : String → CommentResult) (d : Doc) : Doc × Nat × Nat :=
  finalize (processDoc comments d)

/-- Lines 49-53 of dmch.py: is the homepage fetch fatal?  `fetch_url` returns
`(None, None)` on a transport error and `(body, status)` otherwise; the guard
is `status_code != 200 or dm_hp_content is None`. -/
def homepageFatal (fetch : Option (String × Nat)) : Bool :=
  match fetch with
  | none => true
  | some (_, status) => status != 200

/-- A decoded JSON value, as returned by `json.loads`. -/
inductive Json where
  | null : Json
  | bool : Bool → Json
  | num : Int → Json
  | str : String → Json
  | arr : List Json → Json
  | obj : List (String × Json) → Json

/-- The Python exceptions the comment-classification code can raise.  The
`except` clause at line 134 of dmch.py catches `KeyError`, `IndexError` and
`json.JSONDecodeError`; `AttributeError` and `TypeError` are not caught. -/
inductive PyExc where
  | attributeError : PyExc
  | typeError : PyExc
  | keyError : PyExc
  | indexError : PyExc
deriving DecidableEq

/-- Field lookup in a decoded JSON object. -/
def lookupJson (fields : List (String × Json)) (k : String) : Option Json :=
  (fields.find? (fun p => p.1 == k)).map (fun p => p.2)

/-- Python `v.get(k)`: `AttributeError` when the receiver is not a dict. -/
def jsonGet (j : Json) (k : String) : Except PyExc (Option Json) :=
  match j with
  | .obj fs => .ok (lookupJson fs k)
  | _ => .error .attributeError

/-- Python truthiness of a decoded JSON value. -/
def jsonTruthy : Json → Bool
  | .null => false
  | .bool b => b
  | .num n => n != 0
  | .str s => !s.isEmpty
  | .arr xs => !xs.isEmpty
  | .obj fs => !fs.isEmpty

/-- Python `len(v)`: `TypeError` for values without a length. -/
def jsonLen : Json → Except PyExc Nat
  | .arr xs => .ok xs.length
  | .obj fs => .ok fs.length
  | .str s => .ok s.length
  | _ => .error .typeError

/-- Python `v[0]`: first element of a list, `IndexError` when empty,
`KeyError` on a dict (decoded JSON objects have string keys, never `0`),
first character of a string, `TypeError` otherwise. -/
def jsonIndexZero : Json → Except PyExc Json
  | .arr [] => .error .indexError
  | .arr (x :: _) => .ok x
  | .obj _ => .error .keyError
  | .str s =>
    match s.data with
    | [] => .error .indexError
    | c :: _ => .ok (.str (String.mk [c]))
  | _ => .error .typeError

/-- Python `v[k]` for a string key `k`: dict lookup with `KeyError` when the
key is absent, `TypeError` when the receiver is a string, list or other
non-dict (string and list indices must be integers). -/
def jsonGetItemStr (j : Json) (k : String) : Except PyExc Json :=
  match j with
  | .obj fs =>
    match lookupJson fs k with
    | some v => .ok v
    | none => .error .keyError
  | _ => .error .typeError

/-- The body of the `try:` at lines 94-100 of dmch.py on a decoded JSON
value: evaluate the guard `comment_data.get("payload") and
comment_data["payload"].get("page") and len(...) > 0` step by step with
Python semantics, then extract `page[0]["message"]`.  Returns the message
value when the guard holds, `none` when the guard is falsy, or the first
Python exception raised. -/
def extractMessage (j : Json) : Except PyExc (Option Json) := do
  let payload? ← jsonGet j "payload"
  match payload? with
  | none => return none
  | some payload =>
    if !jsonTruthy payload then return none
    else do
      let page? ← jsonGet payload "page"
      match page? with
      | none => return none
      | some page =>
        if !jsonTruthy page then return none
        else do
          let n ← jsonLen page
          if n > 0 then do
            let first ← jsonIndexZero page
            let msg ← jsonGetItemStr first "message"
            return some msg
          else return none

/-- Outcome of classifying one comment response: found a message value, or
nothing usable. -/
inductive CommentOutcome where
  | found : Json → CommentOutcome
  | notFound : CommentOutcome

/-- Is the exception caught by `except (KeyError, IndexError,
json.JSONDecodeError)` at line 134 of dmch.py? -/
def exceptionCaught : PyExc → Bool
  | .keyError => true
  | .indexError => true
  | _ => false

/-- Classification of a decoded JSON body (lines 94-135 of dmch.py): a
message value when the guard holds, `NotFound` when the guard is falsy or a
caught exception is raised, and an escaping exception otherwise, which
aborts the whole run. -/
def classifyJson (j : Json) : Except PyExc CommentOutcome :=
  match extractMessage j with
  | .ok (some m) => .ok (.found m)
  | .ok none => .ok .notFound
  | .error e => if exceptionCaught e then .ok .notFound else .error e

/-- Per-article comment classification, lines 91-137 of dmch.py: a transport
failure (`fetch = none`), a non-200 status or an empty body skip the article;
an unparseable body (`parse body = none`, the `JSONDecodeError` case) is
caught; otherwise the decoded JSON is classified. -/
def resolveComment (fetch : Option (String × Nat)) (parse : String → Option Json) :
    Except PyExc CommentOutcome :=
  match fetch with
  | none => .ok .notFound
  | some (body, status) =>
    if status == 200 && !body.isEmpty then
      match parse body with
      | none => .ok .notFound
      | some j => classifyJson j
    else .ok .notFound

mutual

/-- The article anchors of a subtree in pre-order: `find_all("a",
href=article_href_pattern)` restricted to this subtree. -/
def anchorsN : Node → List Node
  | .text _ => []
  | .elem t a cs =>
    (if isArticleAnchor (.elem t a cs) then [Node.elem t a cs] else []) ++ anchorsL cs

/-- List version of `anchorsN`. -/
def anchorsL : List Node → List Node
  | [] => []
  | n :: ns => anchorsN n ++ anchorsL ns

end

/-- The article links of a document that contain an image, as
`[l for l in links if l.find('img') is not None]` in validate_images.py. -/
def imgArticleLinks (d : Doc) : List Node := (anchorsL d).filter linkHasImg

/-- The article ids of the image-bearing article links (`get_article_ids` in
validate_images.py; set semantics, only membership is ever used). -/
def imgArticleIds (d : Doc) : List String := (imgArticleLinks d).filterMap articleIdOf

/-- The exit code computed by validate_images.py lines 86-116 from the two
parsed documents: 1 when some article id with an image-bearing link in the
original has none in the processed document; else 1 when the number of
image-bearing article links decreased; else 0. -/
def validateExit (orig proc : Doc) : Nat :=
  if !((imgArticleIds orig).filter (fun i => !(imgArticleIds proc).contains i)).isEmpty then 1
  else if (imgArticleLinks proc).length < (imgArticleLinks orig).length then 1
  else 0

/-- Follows the spec's words for C8: the count of image **elements** within
article links (the code instead counts article links that contain at least
one image). -/
def specImageElementCount (d : Doc) : Nat :=
  ((anchorsL d).map (fun n => countL (isTagElem "img") (childrenOf n))).sum

/-- Tail of a URI scheme: scheme characters until a colon.  Helper for
`specHasScheme`. -/
def schemeRest : List Char → Bool
  | [] => false
  | c :: cs =>
    if c == ':' then true
    else (c.isAlphanum || c == '+' || c == '-' || c == '.') && schemeRest cs

/-- Follows the spec's words for C3: an href is an absolute URL when it
starts with a URI scheme (a letter, then scheme characters, then a colon). -/
def specHasScheme (s : String) : Bool :=
  match s.data with
  | [] => false
  | c :: cs => c.isAlpha && schemeRest cs

mutual

/-- Structural equality of nodes (byte-for-byte equality of the
serialization). -/
def beqN : Node → Node → Bool
  | .text s, .text s' => s == s'
  | .elem t a cs, .elem t' a' cs' => t == t' && a == a' && beqL cs cs'
  | _, _ => false

/-- List version of `beqN`. -/
def beqL : List Node → List Node → Bool
  | [], [] => true
  | n :: ns, n' :: ns' => beqN n n' && beqL ns ns'
  | _, _ => false

end

mutual

/-- Lockstep comparison of an input tree with its processed version stating
the `NotFound` preservation invariant: an article anchor whose id resolves to
`NotFound` (or yields no id) must be byte-for-byte unchanged; an anchor in a
`Found` group is unconstrained; every other node must keep its kind, tag and
attributes, with children compared pairwise. -/
def presN (comments : String → CommentResult) : Node → Node → Bool
  | .text s, n' => beqN (.text s) n'
  | .elem t a cs, n' =>
    if isArticleAnchor (.elem t a cs) then
      match articleIdOf (.elem t a cs) with
      | some aid =>
        match comments aid with
        | .notFound => beqN (.elem t a cs) n'
        | .found _ => true
      | none => beqN (.elem t a cs) n'
    else
      match n' with
      | .elem t' a' cs' => t == t' && a == a' && presL comments cs cs'
      | .text _ => false

/-- List version of `presN`; fails on a length mismatch. -/
def presL (comments : String → CommentResult) : List Node → List Node → Bool
  | [], [] => true
  | n :: ns, n' :: ns' => presN comments n n' && presL comments ns ns'
  | _, _ => false

end

mutual

/-- Does the subtree (self included) contain an article anchor? -/
def anyAnchorN : Node → Bool
  | .text _ => false
  | .elem t a cs => isArticleAnchor (.elem t a cs) || anyAnchorL cs

/-- List version of `anyAnchorN`. -/
def anyAnchorL : List Node → Bool
  | [] => false
  | n :: ns => anyAnchorN n || anyAnchorL ns

end

mutual

/-- No article anchor of the subtree has another article anchor among its
descendants (conforming HTML: anchors cannot nest). -/
def noNestedN : Node → Bool
  | .text _ => true
  | .elem t a cs =>
    (if isArticleAnchor (.elem t a cs) then !anyAnchorL cs else true) && noNestedL cs

/-- List version of `noNestedN`. -/
def noNestedL : List Node → Bool
  | [] => true
  | n :: ns => noNestedN n && noNestedL ns

end

mutual

/-- Every article anchor of the subtree whose id resolves to `Found` has an
href starting with "http" (the code's absolutization invariant). -/
def absN (comments : String → CommentResult) : Node → Bool
  | .text _ => true
  | .elem t a cs =>
    (if isArticleAnchor (.elem t a cs) then
       match articleIdOf (.elem t a cs) with
       | some aid =>
         match comments aid with
         | .found _ => startsWithStr ((getAttr a "href").getD "") "http"
         | .notFound => true
       | none => true
     else true) && absL comments cs

/-- List version of `absN`. -/
def absL (comments : String → CommentResult) : List Node → Bool
  | [] => true
  | n :: ns => absN comments n && absL comments ns

end

/-- Is the node an element node? -/
def Node.isElem : Node → Bool
  | .elem _ _ _ => true
  | .text _ => false

/-- Placeholder node used as the `getD` default in statements about list
positions that are always in range. -/
def noNode : Node := .text ""

/-! Concrete documents and anchors used by the closed instance theorems. -/

/-- An image-bearing article anchor whose `strong` headline sits next to the
image, as in the `ul.link-bogr2` layout the code comments mention. -/
def exStrongImgAnchor : Node :=
  .elem "a" [("href", "/news/article-7/")]
    [.elem "strong" [] [.text "Old"], .elem "img" [("src", "x")] []]

/-- A plain text-only article anchor for the same article. -/
def exPlainAnchor : Node := .elem "a" [("href", "/news/article-7/")] [.text "Old Headline"]

/-- A second text-only anchor for the same article. -/
def exPlainAnchor2 : Node := .elem "a" [("href", "/news/article-7/")] [.text "Other text"]

/-- An image-bearing anchor with no `strong` descendant. -/
def exImgOnlyAnchor : Node :=
  .elem "a" [("href", "/news/article-7/")] [.elem "img" [("src", "x")] []]

/-- An article anchor whose image sits inside its `strong` element. -/
def exNestedImgAnchor : Node :=
  .elem "a" [("href", "/news/article-9/")] [.elem "strong" [] [.elem "img" [("src", "x")] []]]

/-- A billboard container with an `ad-slot` element inside it. -/
def exBillboardDoc : Doc := [.elem "div" [("class", "billboard-container")] [.elem "ad-slot" [] []]]

/-- Original document for the validator instance: one article link holding
two images. -/
def exValidateOrig : Doc :=
  [.elem "a" [("href", "/news/article-1/")] [.elem "img" [("src", "a")] [], .elem "img" [("src", "b")] []]]

/-- Processed document for the validator instance: the same link now holding
one image. -/
def exValidateProc : Doc :=
  [.elem "a" [("href", "/news/article-1/")] [.elem "img" [("src", "a")] []]]

/-- A small homepage: one article anchor with a relative href inside a body. -/
def exDoc : Doc := [.elem "body" [] [.elem "a" [("href", "/news/article-3/")] [.text "Old"]]]

/-- An article anchor with a protocol-relative href. -/
def exProtoRelAnchor : Node := .elem "a" [("href", "//cdn/news/article-8/")] [.text "x"]

/-- A decoded comment response whose `payload` field is a list rather than an
object: `{"payload": [1]}`. -/
def exBadPayloadJson : Json := .obj [("payload", .arr [.num 1])]

/-! Auxiliary lemmas about the embedded operations. -/

theorem getAttr_setAttr (attrs : List (String × String)) (k v : String) :
    getAttr (setAttr attrs k v) k = some v := by
  induction attrs with
  | nil => simp [setAttr, getAttr, List.find?]
  | cons p rest ih =>
    obtain ⟨k', v'⟩ := p
    cases h : (k' == k) with
    | true => simp [setAttr, h, getAttr, List.find?]
    | false => simpa [setAttr, h, getAttr, List.find?] using ih

theorem getAttr_fixHref (attrs : List (String × String)) :
    getAttr (fixHref attrs) "href" =
      (getAttr attrs "href").map
        (fun h => if startsWithStr h "http" then h else dmOrigin ++ h) := by
  cases hh : getAttr attrs "href" with
  | none => simp [fixHref, hh]
  | some h =>
    by_cases hs : startsWithStr h "http" = true
    · simp [fixHref, hh, hs]
    · simp [fixHref, hh, hs, getAttr_setAttr]

theorem startsWithStr_origin_append (h : String) :
    startsWithStr (dmOrigin ++ h) "http" = true := by
  cases h with
  | mk l => rfl

theorem processLink_snd_of_true (c : String) (l : Node) :
    (processLink c true l).2 = true := by
  cases l with
  | text s => rfl
  | elem t a cs =>
    by_cases h : linkHasImg (.elem t a cs) = true
    · cases hr : replStrongL c cs <;> simp [processLink, h, hr]
    · simp [processLink, h]

theorem huAfter_cons (c : String) (hu : Bool) (l : Node) (ls : List Node) :
    huAfter c hu (l :: ls) = huAfter c (processLink c hu l).2 ls := rfl

theorem huAfter_append (c : String) (hu : Bool) (u v : List Node) :
    huAfter c hu (u ++ v) = huAfter c (huAfter c hu u) v := by
  simp [huAfter, List.foldl_append]

theorem huAfter_true (c : String) (ls : List Node) : huAfter c true ls = true := by
  induction ls with
  | nil => rfl
  | cons l ls ih => rw [huAfter_cons, processLink_snd_of_true]; exact ih

theorem processLinks_cons (c : String) (hu : Bool) (l : Node) (ls : List Node) :
    processLinks c hu (l :: ls) =
      (processLink c hu l).1 :: processLinks c (processLink c hu l).2 ls := rfl

theorem processLinks_length (c : String) (hu : Bool) (ls : List Node) :
    (processLinks c hu ls).length = ls.length := by
  induction ls generalizing hu with
  | nil => rfl
  | cons l ls ih => simp [processLinks_cons, ih]

theorem processLinks_append (c : String) (hu : Bool) (u v : List Node) :
    processLinks c hu (u ++ v) = processLinks c hu u ++ processLinks c (huAfter c hu u) v := by
  induction u generalizing hu with
  | nil => rfl
  | cons l u ih => simp [processLinks_cons, huAfter_cons, ih]

theorem getD_append_len {α : Type} (u : List α) (x : α) (v : List α) (d : α) :
    (u ++ x :: v).getD u.length d = x := by
  induction u with
  | nil => rfl
  | cons y ys ih => simpa using ih

theorem getD_append_after {α : Type} (u : List α) (x : α) (v : List α) (d : α) (j : Nat) :
    (u ++ x :: v).getD (u.length + 1 + j) d = v.getD j d := by
  induction u with
  | nil =>
    show (x :: v).getD (0 + 1 + j) d = v.getD j d
    have e : 0 + 1 + j = j + 1 := by omega
    rw [e]; rfl
  | cons y ys ih =>
    show ((y :: ys) ++ x :: v).getD (ys.length + 1 + 1 + j) d = v.getD j d
    have e : ys.length + 1 + 1 + j = (ys.length + 1 + j) + 1 := by omega
    rw [e]
    show (ys ++ x :: v).getD (ys.length + 1 + j) d = v.getD j d
    exact ih

mutual

theorem replStrongN_isSome (c : String) : ∀ n : Node, (replStrongN c n).isSome = anyElemN "strong" n
  | .text _ => rfl
  | .elem t a cs => by
    by_cases h : (t == "strong") = true
    · simp [replStrongN, anyElemN, h]
    · have hl := replStrongL_isSome c cs
      cases hr : replStrongL c cs with
      | none => rw [hr] at hl; simp [replStrongN, anyElemN, h, hr, ← hl]
      | some cs' => rw [hr] at hl; simp [replStrongN, anyElemN, h, hr, ← hl]

theorem replStrongL_isSome (c : String) : ∀ ns : List Node, (replStrongL c ns).isSome = anyElemL "strong" ns
  | [] => rfl
  | n :: ns => by
    have h1 := replStrongN_isSome c n
    cases hn : replStrongN c n with
    | some n' => rw [hn] at h1; simp [replStrongL, anyElemL, hn, ← h1]
    | none =>
      rw [hn] at h1
      have h2 := replStrongL_isSome c ns
      cases hl : replStrongL c ns with
      | some ns' => rw [hl] at h2; simp [replStrongL, anyElemL, hn, hl, ← h1, ← h2]
      | none => rw [hl] at h2; simp [replStrongL, anyElemL, hn, hl, ← h1, ← h2]

end

theorem processLink_snd_strong (c : String) (hu : Bool) (l : Node)
    (hI : linkHasImg l = true) (hS : linkHasStrong l = true) :
    (processLink c hu l).2 = true := by
  cases l with
  | text s => simp [linkHasImg] at hI
  | elem t a cs =>
    simp only [linkHasStrong] at hS
    have h := replStrongL_isSome c cs
    rw [hS] at h
    cases hr : replStrongL c cs with
    | none => rw [hr] at h; simp at h
    | some cs' => simp [processLink, hI, hr]

theorem processLink_snd_img_nostrong (c : String) (hu : Bool) (l : Node)
    (hI : linkHasImg l = true) (hS : linkHasStrong l = false) :
    (processLink c hu l).2 = hu := by
  cases l with
  | text s => simp [linkHasImg] at hI
  | elem t a cs =>
    simp only [linkHasStrong] at hS
    have h := replStrongL_isSome c cs
    rw [hS] at h
    cases hr : replStrongL c cs with
    | some cs' => rw [hr] at h; simp at h
    | none => simp [processLink, hI, hr]

theorem processLink_imgfree_fire (c : String) (t : String) (a : List (String × String))
    (cs : List Node) (hI : linkHasImg (.elem t a cs) = false) :
    processLink c false (.elem t a cs) = (.elem t (fixHref a) [.text c], true) := by
  simp [processLink, hI]

theorem processLink_imgfree_skip (c : String) (t : String) (a : List (String × String))
    (cs : List Node) (hI : linkHasImg (.elem t a cs) = false) :
    processLink c true (.elem t a cs) = (.elem t (fixHref a) cs, true) := by
  simp [processLink, hI]

theorem childrenOf_processLink_true (c : String) (l : Node) (hI : linkHasImg l = false) :
    childrenOf (processLink c true l).1 = childrenOf l := by
  cases l with
  | text s => rfl
  | elem t a cs => rw [processLink_imgfree_skip c t a cs hI]; rfl

theorem processLinks_true_keeps_imgfree (c : String) :
    ∀ (ls : List Node) (k : Nat), k < ls.length →
      linkHasImg (ls.getD k noNode) = false →
      childrenOf ((processLinks c true ls).getD k noNode) = childrenOf (ls.getD k noNode) := by
  intro ls
  induction ls with
  | nil => intro k hk; simp at hk
  | cons l ls ih =>
    intro k hk hI
    cases k with
    | zero =>
      rw [processLinks_cons, processLink_snd_of_true]
      exact childrenOf_processLink_true c l hI
    | succ k =>
      rw [processLinks_cons, processLink_snd_of_true]
      exact ih k (by simpa using hk) hI

theorem hrefOf_processLink (c : String) (hu : Bool) (l : Node) :
    hrefOf (processLink c hu l).1 =
      (hrefOf l).map (fun h => if startsWithStr h "http" then h else dmOrigin ++ h) := by
  cases l with
  | text s => rfl
  | elem t a cs =>
    by_cases hI : linkHasImg (.elem t a cs) = true
    · cases hr : replStrongL c cs <;> simp [processLink, hI, hr, hrefOf, getAttr_fixHref]
    · cases hu <;> simp [processLink, hI, hrefOf, getAttr_fixHref]

theorem processLinks_getD (c : String) :
    ∀ (ls : List Node) (hu : Bool) (k : Nat), k < ls.length →
      (processLinks c hu ls).getD k noNode =
        (processLink c (huAfter c hu (ls.take k)) (ls.getD k noNode)).1 := by
  intro ls
  induction ls with
  | nil => intro hu k hk; simp at hk
  | cons l ls ih =>
    intro hu k hk
    cases k with
    | zero => rfl
    | succ k =>
      rw [processLinks_cons]
      show (processLinks c (processLink c hu l).2 ls).getD k noNode = _
      rw [ih (processLink c hu l).2 k (by simpa using hk)]
      rfl

theorem isArticleAnchor_children (t : String) (a : List (String × String)) (cs cs' : List Node) :
    isArticleAnchor (.elem t a cs) = isArticleAnchor (.elem t a cs') := rfl

theorem isArticleAnchor_href (t : String) (a : List (String × String)) (cs : List Node)
    (hm : isArticleAnchor (.elem t a cs) = true) : ∃ h, getAttr a "href" = some h := by
  simp only [isArticleAnchor] at hm
  cases hh : getAttr a "href" with
  | some h => exact ⟨h, rfl⟩
  | none => rw [hh] at hm; simp at hm

mutual

theorem beqN_refl : ∀ n : Node, beqN n n = true
  | .text s => by simp [beqN]
  | .elem t a cs => by simp [beqN, beqL_refl cs]

theorem beqL_refl : ∀ ns : List Node, beqL ns ns = true
  | [] => rfl
  | n :: ns => by simp [beqL, beqN_refl n, beqL_refl ns]

end

mutual

theorem absN_of_noAnchor (comments : String → CommentResult) :
    ∀ n : Node, anyAnchorN n = false → absN comments n = true
  | .text _, _ => rfl
  | .elem t a cs, h => by
    simp only [anyAnchorN, Bool.or_eq_false_iff] at h
    simp [absN, h.1, absL_of_noAnchor comments cs h.2]

theorem absL_of_noAnchor (comments : String → CommentResult) :
    ∀ ns : List Node, anyAnchorL ns = false → absL comments ns = true
  | [], _ => rfl
  | n :: ns, h => by
    simp only [anyAnchorL, Bool.or_eq_false_iff] at h
    simp [absL, absN_of_noAnchor comments n h.1, absL_of_noAnchor comments ns h.2]

end

mutual

theorem replStrongN_noAnchor (c : String) :
    ∀ (n n' : Node), replStrongN c n = some n' → anyAnchorN n = false → anyAnchorN n' = false
  | .text _, n', h, _ => by simp [replStrongN] at h
  | .elem t a cs, n', h, ha => by
    simp only [anyAnchorN, Bool.or_eq_false_iff] at ha
    by_cases ht : (t == "strong") = true
    · simp only [replStrongN, ht, if_pos, Option.some.injEq] at h
      subst h
      simp only [anyAnchorN, Bool.or_eq_false_iff]
      refine ⟨?_, by simp [anyAnchorL, anyAnchorN]⟩
      rw [isArticleAnchor_children t a [Node.text c] cs]
      exact ha.1
    · cases hr : replStrongL c cs with
      | none => simp [replStrongN, ht, hr] at h
      | some cs2 =>
        simp [replStrongN, ht, hr] at h
        subst h
        simp only [anyAnchorN, Bool.or_eq_false_iff]
        refine ⟨?_, replStrongL_noAnchor c cs cs2 hr ha.2⟩
        rw [isArticleAnchor_children t a cs2 cs]
        exact ha.1

theorem replStrongL_noAnchor (c : String) :
    ∀ (ns ns' : List Node), replStrongL c ns = some ns' → anyAnchorL ns = false → anyAnchorL ns' = false
  | [], ns', h, _ => by simp [replStrongL] at h
  | n :: ns, ns', h, ha => by
    simp only [anyAnchorL, Bool.or_eq_false_iff] at ha
    cases hn : replStrongN c n with
    | some n2 =>
      simp only [replStrongL, hn, Option.some.injEq] at h
      subst h
      simp only [anyAnchorL, Bool.or_eq_false_iff]
      exact ⟨replStrongN_noAnchor c n n2 hn ha.1, ha.2⟩
    | none =>
      cases hl : replStrongL c ns with
      | some ns2 =>
        simp only [replStrongL, hn, hl, Option.some.injEq] at h
        subst h
        simp only [anyAnchorL, Bool.or_eq_false_iff]
        exact ⟨ha.1, replStrongL_noAnchor c ns ns2 hl ha.2⟩
      | none => simp [replStrongL, hn, hl] at h

end

mutual

theorem presN_goN (comments : String → CommentResult) :
    ∀ (upd : List String) (n : Node), presN comments n (goN comments upd n).1 = true
  | _, .text s => by simp [goN, presN, beqN]
  | upd, .elem t a cs => by
    by_cases hm : isArticleAnchor (.elem t a cs) = true
    · simp only [goN, hm, if_pos]
      cases hid : articleIdOf (.elem t a cs) with
      | none => simp [rewriteAnchor, hid, presN, hm, beqN_refl]
      | some aid =>
        cases hc : comments aid with
        | notFound => simp [rewriteAnchor, hid, hc, presN, hm, beqN_refl]
        | found cmt => simp [rewriteAnchor, hid, hc, presN, hm]
    · simp only [goN, hm, if_neg, Bool.false_eq_true, not_false_eq_true]
      simp [presN, hm, presL_goL comments upd cs]

theorem presL_goL (comments : String → CommentResult) :
    ∀ (upd : List String) (ns : List Node), presL comments ns (goL comments upd ns).1 = true
  | _, [] => rfl
  | upd, n :: ns => by
    simp [goL, presL, presN_goN comments upd n, presL_goL comments (goN comments upd n).2 ns]

end

mutual

theorem absN_goN (comments : String → CommentResult) :
    ∀ (upd : List String) (n : Node), noNestedN n = true → absN comments (goN comments upd n).1 = true
  | _, .text _, _ => rfl
  | upd, .elem t a cs, hnn => by
    simp only [noNestedN, Bool.and_eq_true] at hnn
    by_cases hm : isArticleAnchor (.elem t a cs) = true
    · have hna : anyAnchorL cs = false := by
        have h1 := hnn.1
        rw [if_pos hm] at h1
        simpa using h1
      have hhttp : startsWithStr ((getAttr (fixHref a) "href").getD "") "http" = true := by
        obtain ⟨h0, hh0⟩ := isArticleAnchor_href t a cs hm
        rw [getAttr_fixHref, hh0]
        by_cases hs : startsWithStr h0 "http" = true
        · simp [hs]
        · simp [hs, startsWithStr_origin_append]
      have habs2 : ∀ cs2 : List Node, anyAnchorL cs2 = false →
          absN comments (.elem t (fixHref a) cs2) = true := by
        intro cs2 hcs2
        have habsL := absL_of_noAnchor comments cs2 hcs2
        by_cases hm2 : isArticleAnchor (.elem t (fixHref a) cs2) = true
        · cases hid2 : articleIdOf (.elem t (fixHref a) cs2) with
          | none => simp [absN, hm2, hid2, habsL]
          | some aid2 =>
            cases hc2 : comments aid2 with
            | notFound => simp [absN, hm2, hid2, hc2, habsL]
            | found c2 => simp [absN, hm2, hid2, hc2, habsL, hhttp]
        · simp [absN, hm2, habsL]
      simp only [goN, hm, if_pos]
      cases hid : articleIdOf (.elem t a cs) with
      | none => simp [rewriteAnchor, hid, absN, hm, absL_of_noAnchor comments cs hna]
      | some aid =>
        cases hc : comments aid with
        | notFound => simp [rewriteAnchor, hid, hc, absN, hm, absL_of_noAnchor comments cs hna]
        | found cmt =>
          simp only [rewriteAnchor, hid, hc]
          by_cases hI : linkHasImg (.elem t a cs) = true
          · cases hr : replStrongL cmt cs with
            | some cs' =>
              have hcs' : anyAnchorL cs' = false := replStrongL_noAnchor cmt cs cs' hr hna
              simp only [processLink, hI, hr, if_pos]
              exact habs2 cs' hcs'
            | none =>
              simp only [processLink, hI, hr, if_pos]
              exact habs2 cs hna
          · cases hflag : upd.contains aid with
            | true =>
              simp only [processLink, hI, hflag]
              simp only [Bool.false_eq_true, if_neg, not_false_eq_true, if_pos]
              exact habs2 cs hna
            | false =>
              simp only [processLink, hI, hflag]
              simp only [Bool.false_eq_true, if_neg, not_false_eq_true]
              exact habs2 [Node.text cmt] (by simp [anyAnchorL, anyAnchorN])
    · have hm' : isArticleAnchor (.elem t a (goL comments upd cs).1) = false := by
        rw [isArticleAnchor_children t a _ cs]
        simpa using hm
      simp only [goN, hm, if_neg, Bool.false_eq_true, not_false_eq_true]
      simp [absN, hm', absL_goL comments upd cs hnn.2]

theorem absL_goL (comments : String → CommentResult) :
    ∀ (upd : List String) (ns : List Node), noNestedL ns = true → absL comments (goL comments upd ns).1 = true
  | _, [], _ => rfl
  | upd, n :: ns, hnn => by
    simp only [noNestedL, Bool.and_eq_true] at hnn
    simp [goL, absL, absN_goN comments upd n hnn.1,
      absL_goL comments (goN comments upd n).2 ns hnn.2]

end

theorem isBillboard_children (t : String) (a : List (String × String)) (cs cs' : List Node) :
    isBillboard (.elem t a cs) = isBillboard (.elem t a cs') := rfl

theorem isAdSlot_children (t : String) (a : List (String × String)) (cs cs' : List Node) :
    isAdSlot (.elem t a cs) = isAdSlot (.elem t a cs') := rfl

mutual

theorem countN_removeN_zero (p : Node → Bool)
    (hp : ∀ t a cs cs', p (.elem t a cs) = p (.elem t a cs')) :
    ∀ (n n' : Node), removeN p n = some n' → countN p n' = 0
  | .text s, n', h => by
    by_cases hps : p (.text s) = true
    · simp [removeN, hps] at h
    · simp [removeN, hps] at h; subst h; simp [countN, hps]
  | .elem t a cs, n', h => by
    by_cases hps : p (.elem t a cs) = true
    · simp [removeN, hps] at h
    · simp [removeN, hps] at h
      subst h
      have hhead : p (.elem t a (removeL p cs)) = false := by
        rw [hp t a (removeL p cs) cs]
        simpa using hps
      simp [countN, hhead, countL_removeL_zero p hp cs]

theorem countL_removeL_zero (p : Node → Bool)
    (hp : ∀ t a cs cs', p (.elem t a cs) = p (.elem t a cs')) :
    ∀ ns : List Node, countL p (removeL p ns) = 0
  | [] => rfl
  | n :: ns => by
    cases hn : removeN p n with
    | none => simp [removeL, hn, countL_removeL_zero p hp ns]
    | some n' =>
      simp [removeL, hn, countL, countN_removeN_zero p hp n n' hn, countL_removeL_zero p hp ns]

end

mutual

theorem countN_removeN_le (p q : Node → Bool)
    (hq : ∀ t a cs cs', q (.elem t a cs) = q (.elem t a cs')) :
    ∀ (n n' : Node), removeN p n = some n' → countN q n' ≤ countN q n
  | .text s, n', h => by
    by_cases hps : p (.text s) = true
    · simp [removeN, hps] at h
    · simp [removeN, hps] at h; subst h; exact Nat.le_refl _
  | .elem t a cs, n', h => by
    by_cases hps : p (.elem t a cs) = true
    · simp [removeN, hps] at h
    · simp [removeN, hps] at h
      subst h
      have hhead : q (.elem t a (removeL p cs)) = q (.elem t a cs) := hq t a _ cs
      simp only [countN, hhead]
      exact Nat.add_le_add_left (countL_removeL_le p q hq cs) _

theorem countL_removeL_le (p q : Node → Bool)
    (hq : ∀ t a cs cs', q (.elem t a cs) = q (.elem t a cs')) :
    ∀ ns : List Node, countL q (removeL p ns) ≤ countL q ns
  | [] => Nat.le_refl _
  | n :: ns => by
    cases hn : removeN p n with
    | none =>
      simp only [removeL, hn, countL]
      calc countL q (removeL p ns) ≤ countL q ns := countL_removeL_le p q hq ns
        _ ≤ countN q n + countL q ns := Nat.le_add_left _ _
    | some n' =>
      simp only [removeL, hn, countL]
      exact Nat.add_le_add (countN_removeN_le p q hq n n' hn) (countL_removeL_le p q hq ns)

end

theorem huAfter_false_of_img_nostrong (c : String) :
    ∀ ls : List Node, (∀ l ∈ ls, linkHasImg l = true) → (∀ l ∈ ls, linkHasStrong l = false) →
      huAfter c false ls = false
  | [], _, _ => rfl
  | l :: ls, hI, hS => by
    rw [huAfter_cons, processLink_snd_img_nostrong c false l (hI l (by simp)) (hS l (by simp))]
    exact huAfter_false_of_img_nostrong c ls (fun x hx => hI x (by simp [hx]))
      (fun x hx => hS x (by simp [hx]))

theorem getD_append_lt {α : Type} :
    ∀ (u : List α) (x : α) (v : List α) (d : α) (k : Nat), k < u.length →
      (u ++ x :: v).getD k d = u.getD k d
  | [], _, _, _, k, hk => by simp at hk
  | _ :: _, _, _, _, 0, _ => rfl
  | y :: ys, x, v, d, k + 1, hk => getD_append_lt ys x v d k (by simpa using hk)

theorem getD_mem {α : Type} (u : List α) (k : Nat) (d : α) (hk : k < u.length) :
    u.getD k d ∈ u := by
  rw [List.getD_eq_getElem u d hk]
  exact List.getElem_mem hk

/-! CLAIM THEOREMS -/

/-- C1 (counterexample to the claim as stated): in a `Found` group whose
first anchor is image-bearing with a `strong` descendant, the first image-free
anchor in document order (index 1, `exPlainAnchor`) keeps its old text — no
anchor has its direct text replaced with the comment — and moreover its href
is modified, so it is not "left unmodified" either. -/
theorem headlineSlot_first_image_free_cex :
    linkHasImg exPlainAnchor = false ∧ linkHasImg exStrongImgAnchor = true ∧
    childrenOf ((processLinks "Top comment" false [exStrongImgAnchor, exPlainAnchor]).getD 1 noNode) =
      [.text "Old Headline"] ∧
    "Old Headline" ≠ "Top comment" ∧
    hrefOf ((processLinks "Top comment" false [exStrongImgAnchor, exPlainAnchor]).getD 1 noNode) =
      some "https://www.dailymail.co.uk/news/article-7/" :=
  ⟨by decide, by decide, rfl, by decide, rfl⟩

/-- C1 (amended): in a `Found` group, write `pre ++ b :: post` where `b` is
the first image-free anchor (everything in `pre` is image-bearing).  If no
anchor of `pre` has a `strong` descendant, then `b`'s children are replaced
by exactly the comment text and every other image-free anchor keeps its
children; if some anchor of `pre` has a `strong` descendant, the headline
slot is already filled and every image-free anchor of the group (including
`b`) keeps its children.  Hrefs may still be rewritten in either case. -/
theorem headlineSlot_unique_rewrite
    (comment : String) (pre post : List Node) (b : Node)
    (hpre : ∀ l ∈ pre, linkHasImg l = true)
    (hb : linkHasImg b = false) (hbe : b.isElem = true) :
    ((∀ l ∈ pre, linkHasStrong l = false) →
        childrenOf ((processLinks comment false (pre ++ b :: post)).getD pre.length noNode) =
          [.text comment] ∧
        ∀ k, pre.length < k → k < (pre ++ b :: post).length →
          linkHasImg ((pre ++ b :: post).getD k noNode) = false →
          childrenOf ((processLinks comment false (pre ++ b :: post)).getD k noNode) =
            childrenOf ((pre ++ b :: post).getD k noNode)) ∧
    ((∃ l ∈ pre, linkHasStrong l = true) →
        ∀ k, k < (pre ++ b :: post).length →
          linkHasImg ((pre ++ b :: post).getD k noNode) = false →
          childrenOf ((processLinks comment false (pre ++ b :: post)).getD k noNode) =
            childrenOf ((pre ++ b :: post).getD k noNode)) := by
  have hlen : (processLinks comment false pre).length = pre.length :=
    processLinks_length comment false pre
  have hsplit : processLinks comment false (pre ++ b :: post) =
      processLinks comment false pre ++
        (processLink comment (huAfter comment false pre) b).1 ::
          processLinks comment (processLink comment (huAfter comment false pre) b).2 post := by
    rw [processLinks_append, processLinks_cons]
  constructor
  · intro hnos
    have h0 : huAfter comment false pre = false :=
      huAfter_false_of_img_nostrong comment pre hpre hnos
    obtain ⟨tb, ab, csb, rfl⟩ : ∃ tb ab csb, b = Node.elem tb ab csb := by
      cases b with
      | elem tb ab csb => exact ⟨tb, ab, csb, rfl⟩
      | text s => simp [Node.isElem] at hbe
    have hfire := processLink_imgfree_fire comment tb ab csb hb
    constructor
    · rw [hsplit, h0, hfire, ← hlen, getD_append_len]
      rfl
    · intro k hk1 hk2 hIk
      obtain ⟨j, rfl⟩ : ∃ j, k = pre.length + 1 + j := ⟨k - pre.length - 1, by omega⟩
      have hjlen : j < post.length := by
        have hL : (pre ++ Node.elem tb ab csb :: post).length = pre.length + (post.length + 1) := by
          simp
        omega
      rw [hsplit, h0, hfire]
      rw [getD_append_after] at hIk
      rw [getD_append_after]
      rw [← hlen, getD_append_after]
      exact processLinks_true_keeps_imgfree comment post j hjlen hIk
  · rintro ⟨l0, hl0m, hl0s⟩ k hk2 hIk
    have h0 : huAfter comment false pre = true := by
      obtain ⟨s, t, rfl⟩ := List.append_of_mem hl0m
      rw [huAfter_append, huAfter_cons,
        processLink_snd_strong comment _ l0 (hpre l0 hl0m) hl0s, huAfter_true]
    rcases Nat.lt_trichotomy k pre.length with hlt | heq | hgt
    · rw [getD_append_lt pre b post noNode k hlt] at hIk
      have himg : linkHasImg (pre.getD k noNode) = true := hpre _ (getD_mem pre k noNode hlt)
      rw [himg] at hIk
      exact absurd hIk (by simp)
    · subst heq
      rw [getD_append_len]
      rw [hsplit, h0, ← hlen, getD_append_len]
      exact childrenOf_processLink_true comment b hb
    · obtain ⟨j, rfl⟩ : ∃ j, k = pre.length + 1 + j := ⟨k - pre.length - 1, by omega⟩
      have hjlen : j < post.length := by
        have hL : (pre ++ b :: post).length = pre.length + (post.length + 1) := by simp
        omega
      rw [hsplit, h0, processLink_snd_of_true]
      rw [getD_append_after] at hIk
      rw [getD_append_after]
      rw [← hlen, getD_append_after]
      exact processLinks_true_keeps_imgfree comment post j hjlen hIk

/-- C1 witness: with an image-only anchor (no `strong`) before a plain anchor
and a second plain anchor after it, the first image-free anchor (index 1)
gets exactly the comment text. -/
theorem headlineSlot_unique_rewrite_witness :
    childrenOf ((processLinks "Top comment" false
        [exImgOnlyAnchor, exPlainAnchor, exPlainAnchor2]).getD 1 noNode) =
      [Node.text "Top comment"] :=
  ((headlineSlot_unique_rewrite "Top comment" [exImgOnlyAnchor] [exPlainAnchor2] exPlainAnchor
      (by decide) (by decide) (by decide)).1 (by decide)).1

/-- C2: on an anchor whose image sits inside its `strong` element, the code's
`strong.clear()` destroys the image: the processed anchor has no image
descendant left, although the input anchor had one.  This contradicts the
image-preservation invariant the code's own comments and the validator
assert. -/
theorem image_inside_strong_destroyed :
    linkHasImg exNestedImgAnchor = true ∧
    linkHasImg (processLink "Top comment" false exNestedImgAnchor).1 = false ∧
    countN (isTagElem "img") (processLink "Top comment" false exNestedImgAnchor).1 = 0 ∧
    countN (isTagElem "img") exNestedImgAnchor = 1 :=
  ⟨by decide, by decide, by decide, by decide⟩

/-- C3 (counterexample to the claim as stated): a document whose only article
anchor resolves to `NotFound` passes through unchanged, so the output anchor
href `/news/article-3/` is not an absolute URL (it lacks a scheme). -/
theorem relative_href_survives_notFound :
    processDoc (fun _ => CommentResult.notFound) exDoc = exDoc ∧
    isArticleAnchor ((childrenOf (exDoc.getD 0 noNode)).getD 0 noNode) = true ∧
    hrefOf ((childrenOf (exDoc.getD 0 noNode)).getD 0 noNode) = some "/news/article-3/" ∧
    specHasScheme "/news/article-3/" = false :=
  ⟨rfl, by decide, rfl, by decide⟩

/-- C3 (amended): in a document without nested article anchors, every article
anchor whose id resolves to `Found` carries an href starting with `"http"`
after processing (already-absolute hrefs are kept, all others get the site
origin prefixed); anchors of `NotFound` groups are not rewritten at all. -/
theorem found_anchors_href_http (comments : String → CommentResult) (d : Doc)
    (hnn : noNestedL d = true) :
    absL comments (processDoc comments d) = true :=
  absL_goL comments [] d hnn

/-- C3 witness: the amended theorem applied to the concrete homepage with a
`Found` oracle. -/
theorem found_anchors_href_http_witness :
    noNestedL exDoc = true ∧
    absL (fun _ => CommentResult.found "C") (processDoc (fun _ => CommentResult.found "C") exDoc) = true :=
  ⟨by decide, found_anchors_href_http (fun _ => CommentResult.found "C") exDoc (by decide)⟩

/-- C4: every article anchor whose id resolves to `NotFound` (or whose href
yields no id) is byte-for-byte identical, at the same tree position, after
the whole document pass; all other nodes (outside `Found` anchors) keep
their kind, tag and attributes.  Stated via the lockstep predicate `presL`. -/
theorem notFound_groups_untouched (comments : String → CommentResult) (d : Doc) :
    presL comments d (processDoc comments d) = true :=
  presL_goL comments [] d

/-- C5: comment-response classification is not total.  On HTTP 200 with body
`{"payload": [1]}` — valid JSON whose `payload` is a list, so truthy —
`comment_data["payload"].get("page")` raises `AttributeError`, which the
`except (KeyError, IndexError, json.JSONDecodeError)` clause does not catch:
the exception escapes and aborts the whole run. -/
theorem classification_not_total :
    classifyJson exBadPayloadJson = .error .attributeError ∧
    resolveComment (some ("\x7b\"payload\": [1]\x7d", 200)) (fun _ => some exBadPayloadJson) =
      .error .attributeError ∧
    exceptionCaught .attributeError = false :=
  ⟨rfl, rfl, rfl⟩

/-- C6 (counterexample to the claim as stated): an HTTP 200 response with an
empty body is not fatal — the guard only tests `status_code != 200 or
dm_hp_content is None`, and an empty byte string is not `None`. -/
theorem empty_body_200_not_fatal :
    homepageFatal (some ("", 200)) = false ∧ ("" : String).isEmpty = true :=
  ⟨rfl, rfl⟩

/-- C6 (amended): the homepage fetch succeeds exactly when the transport
succeeds with HTTP status 200, whatever the body (possibly empty); a
transport failure or any non-200 status is fatal. -/
theorem homepage_fatal_iff_not_200 (fetch : Option (String × Nat)) :
    homepageFatal fetch = false ↔ ∃ body, fetch = some (body, 200) := by
  cases fetch with
  | none => simp [homepageFatal]
  | some p =>
    obtain ⟨b, s⟩ := p
    simp only [homepageFatal, bne_eq_false_iff_eq, Option.some.injEq, Prod.mk.injEq]
    constructor
    · intro hs; exact ⟨b, rfl, hs⟩
    · rintro ⟨body, _, hs⟩; exact hs

/-- C7 (counterexample to the claim as stated): when an `ad-slot` element
sits inside a billboard container, the billboard pass removes it before the
`ad-slot` pass counts, so the ad-slot removal counter is 0 although the
input document contains one such element. -/
theorem adslot_counter_undercounts :
    countL isAdSlot exBillboardDoc = 1 ∧
    mainRun (fun _ => CommentResult.notFound) exBillboardDoc = ([], 1, 0) :=
  ⟨by decide, rfl⟩

/-- C7 (amended): after finalization no billboard container and no `ad-slot`
element remains in the output; the billboard counter equals the number of
billboard containers in the document at finalization time (after headline
rewriting), and the ad-slot counter equals the number of `ad-slot` elements
remaining after billboard removal. -/
theorem finalizer_removes_and_counts (comments : String → CommentResult) (d : Doc) :
    countL isBillboard (mainRun comments d).1 = 0 ∧
    countL isAdSlot (mainRun comments d).1 = 0 ∧
    (mainRun comments d).2.1 = countL isBillboard (processDoc comments d) ∧
    (mainRun comments d).2.2 = countL isAdSlot (removeL isBillboard (processDoc comments d)) := by
  refine ⟨?_, ?_, rfl, rfl⟩
  · have h0 : countL isBillboard (removeL isBillboard (processDoc comments d)) = 0 :=
      countL_removeL_zero isBillboard isBillboard_children _
    have hle := countL_removeL_le isAdSlot isBillboard isBillboard_children
      (removeL isBillboard (processDoc comments d))
    show countL isBillboard
      (removeL isAdSlot (removeL isBillboard (processDoc comments d))) = 0
    omega
  · exact countL_removeL_zero isAdSlot isAdSlot_children _

/-- C8 (counterexample to the claim as stated): an article link that goes
from two images down to one keeps the validator happy — it exits 0 — although
the count of image elements within article links decreased, because the code
counts image-bearing links, not image elements. -/
theorem validator_ignores_img_element_count :
    validateExit exValidateOrig exValidateProc = 0 ∧
    specImageElementCount exValidateProc < specImageElementCount exValidateOrig :=
  ⟨by decide, by decide⟩

/-- C8 (amended): the validator exits non-zero exactly when some article id
with an image-bearing article link in the original document has none in the
processed document, or the number of image-bearing article links decreased;
otherwise it exits zero. -/
theorem validator_exit_iff (orig proc : Doc) :
    validateExit orig proc ≠ 0 ↔
      ((∃ aid ∈ imgArticleIds orig, aid ∉ imgArticleIds proc) ∨
        (imgArticleLinks proc).length < (imgArticleLinks orig).length) := by
  by_cases hm : ((imgArticleIds orig).filter (fun i => !(imgArticleIds proc).contains i)) = []
  · have hnomiss : ¬∃ aid ∈ imgArticleIds orig, aid ∉ imgArticleIds proc := by
      rw [List.filter_eq_nil_iff] at hm
      rintro ⟨aid, hmem, hnot⟩
      exact hm aid hmem (by simp [hnot])
    show (if !((imgArticleIds orig).filter
          (fun i => !(imgArticleIds proc).contains i)).isEmpty then (1 : Nat)
        else if (imgArticleLinks proc).length < (imgArticleLinks orig).length then 1
        else 0) ≠ 0 ↔ _
    rw [hm]
    by_cases hlen : (imgArticleLinks proc).length < (imgArticleLinks orig).length
    · simp [hlen, hnomiss]
    · simp [hlen, hnomiss]
  · have hmiss : ∃ aid ∈ imgArticleIds orig, aid ∉ imgArticleIds proc := by
      obtain ⟨x, hx⟩ := List.exists_mem_of_ne_nil _ hm
      rw [List.mem_filter] at hx
      exact ⟨x, hx.1, by simpa using hx.2⟩
    have hne : ((imgArticleIds orig).filter
        (fun i => !(imgArticleIds proc).contains i)).isEmpty = false := by
      cases hfe : ((imgArticleIds orig).filter
          (fun i => !(imgArticleIds proc).contains i)).isEmpty with
      | false => rfl
      | true => exact absurd (List.isEmpty_iff.mp hfe) hm
    show (if !((imgArticleIds orig).filter
          (fun i => !(imgArticleIds proc).contains i)).isEmpty then (1 : Nat)
        else if (imgArticleLinks proc).length < (imgArticleLinks orig).length then 1
        else 0) ≠ 0 ↔ _
    rw [hne]
    simp [hmiss]

/-- C9: in a `Found` group, an image-bearing anchor with a `strong`
descendant fills the shared headline slot, so an image-free anchor occurring
later in document order keeps its children — it receives no direct text
replacement. -/
theorem strong_image_anchor_fills_slot
    (comment : String) (pre mid post : List Node) (a b : Node)
    (haI : linkHasImg a = true) (haS : linkHasStrong a = true) (hbI : linkHasImg b = false) :
    childrenOf ((processLinks comment false (pre ++ a :: (mid ++ b :: post))).getD
        (pre.length + 1 + mid.length) noNode) = childrenOf b := by
  rw [processLinks_append, processLinks_cons]
  rw [processLink_snd_strong comment (huAfter comment false pre) a haI haS]
  rw [processLinks_append, huAfter_true, processLinks_cons]
  rw [← processLinks_length comment false pre]
  rw [getD_append_after]
  rw [← processLinks_length comment true mid]
  rw [getD_append_len]
  exact childrenOf_processLink_true comment b hbI

/-- C9 witness: the strong-bearing image anchor at index 0 fills the slot,
and the plain anchor at index 1 keeps its children. -/
theorem strong_image_anchor_fills_slot_witness :
    childrenOf ((processLinks "Top comment" false [exStrongImgAnchor, exPlainAnchor]).getD 1 noNode) =
      childrenOf exPlainAnchor :=
  strong_image_anchor_fills_slot "Top comment" [] [] [] exStrongImgAnchor exPlainAnchor
    (by decide) (by decide) (by decide)

/-- C10: in a `Found` group, every anchor's href is rewritten exactly when it
does not start with the literal string `"http"`: such hrefs (including
protocol-relative `//…` and non-http schemes) get the site origin prefixed,
while any href starting with `"http"` is left unchanged. -/
theorem found_group_href_rewrite
    (comment : String) (links : List Node) (k : Nat) (h : String)
    (hk : k < links.length)
    (hh : hrefOf (links.getD k noNode) = some h) :
    hrefOf ((processGroup (.found comment) links).getD k noNode) =
      some (if startsWithStr h "http" then h else dmOrigin ++ h) := by
  show hrefOf ((processLinks comment false links).getD k noNode) = _
  rw [processLinks_getD comment links false k hk, hrefOf_processLink, hh]
  rfl

/-- C10 witness: a protocol-relative href gets the origin prefixed. -/
theorem found_group_href_rewrite_witness :
    hrefOf ((processGroup (.found "C") [exProtoRelAnchor]).getD 0 noNode) =
      some (if startsWithStr "//cdn/news/article-8/" "http" then "//cdn/news/article-8/"
            else dmOrigin ++ "//cdn/news/article-8/") :=
  found_group_href_rewrite "C" [exProtoRelAnchor] 0 "//cdn/news/article-8/" (by decide) rfl

end Dmch
